import Mathlib

/-!
# go-baas: an HTTP adapter around bcrypt

A shallow embedding of `main.go`: the two handlers `handleHash` and
`handleVerify`, the response helper `sendResponse` and the middleware
`withLogging`, as state-passing functions over an explicit `State` (the
response writer, the standard logger's output, and the trace of calls made to
the hashing primitive).

What the program imports is kept outside the program:

* `net/http`'s `ParseForm`, `bcrypt.GenerateFromPassword`,
  `bcrypt.CompareHashAndPassword` and the outcome of writing the JSON body are
  the fields of a `Lib` value, over which every theorem quantifies;
* `strconv.Atoi` is modelled after the Go standard library (64-bit `int`),
  because two statements are about which `cost` strings it accepts;
* Go strings are Lean `String`s, Go `error` values are their messages.
-/

set_option autoImplicit false

namespace GoBaas

/-! ## Go values -/

/-- A Go `error` value, identified by its message. -/
structure GoError where
  msg : String
deriving DecidableEq, Repr

/-- The two causes `strconv` reports in a `*NumError`. -/
inductive NumError where
  | ErrSyntax
  | ErrRange
deriving DecidableEq, Repr

/-! ## strconv.Atoi (Go standard library, 64-bit platform) -/

/-- Size of `int` in bits (`strconv.IntSize`). -/
def intSize : Nat := 64

/-- Largest `uint64`. -/
def maxUint64 : Nat := 2 ^ 64 - 1

/-- Is the byte one of `'0'..'9'`. -/
def isDec (c : Char) : Bool := decide ('0'.toNat ≤ c.toNat) && decide (c.toNat ≤ '9'.toNat)

/-- Value of a decimal digit byte, `c - '0'`. -/
def decVal (c : Char) : Nat := c.toNat - '0'.toNat

/-- The digit loop of `strconv.ParseUint(s, 10, 0)`: `n` is the `uint64`
accumulator. A byte that is not a decimal digit is a syntax error (a letter has
digit value at least 10, the base; any other byte is no digit at all); an
accumulator that would leave `uint64` is a range error. -/
def ParseUint.loop (cutoff maxVal : Nat) : List Char → Nat → Except NumError Nat
  | [], n => .ok n
  | c :: cs, n =>
    if isDec c then
      if n ≥ cutoff then .error .ErrRange
      else
        let n10 := (n * 10) % 2 ^ 64
        let n1 := (n10 + decVal c) % 2 ^ 64
        if n1 < n10 ∨ n1 > maxVal then .error .ErrRange
        else ParseUint.loop cutoff maxVal cs n1
    else .error .ErrSyntax

/-- Model of `strconv.ParseUint(s, 10, 0)` on the bytes `s`. -/
def ParseUint (s : List Char) : Except NumError Nat :=
  if s = [] then .error .ErrSyntax
  else ParseUint.loop (maxUint64 / 10 + 1) (2 ^ intSize - 1) s 0

/-- Model of `strconv.ParseInt(s, 10, 0)`: an optional sign, then `ParseUint`,
then the check against the signed range. After a range error of `ParseUint`
the Go code goes on with `un = maxVal`, which fails the signed check as well,
so both kinds of error end as an error here. -/
def ParseInt (s : List Char) : Except NumError Int :=
  if s = [] then .error .ErrSyntax
  else
    let neg : Bool := s.head? = some '-'
    let s1 := if s.head? = some '+' ∨ s.head? = some '-' then s.tail else s
    match ParseUint s1 with
    | .error e => .error e
    | .ok un =>
      let cutoff := 2 ^ (intSize - 1)
      if neg = false ∧ un ≥ cutoff then .error .ErrRange
      else if neg = true ∧ un > cutoff then .error .ErrRange
      else .ok (if neg then -(un : Int) else (un : Int))

/-- The digit loop of the fast path of `strconv.Atoi`. -/
def Atoi.fastLoop : List Char → Int → Except NumError Int
  | [], n => .ok n
  | ch :: rest, n =>
    if isDec ch then Atoi.fastLoop rest (n * 10 + (decVal ch : Int))
    else .error .ErrSyntax

/-- Model of `strconv.Atoi`: strings of 1 to 18 bytes take the fast path (they
cannot overflow an `int`), where a sign is stripped, a sign alone is a syntax
error and the digits are accumulated; all other strings go through
`ParseInt(s, 10, 0)`. -/
def Atoi (s : String) : Except NumError Int :=
  let sLen := s.utf8ByteSize
  if 0 < sLen ∧ sLen < 19 then
    let s0 := s.toList
    let signed : Bool := s0.head? = some '-' ∨ s0.head? = some '+'
    let s1 := if signed then s0.tail else s0
    if signed = true ∧ s1.length < 1 then .error .ErrSyntax
    else
      match Atoi.fastLoop s1 0 with
      | .error e => .error e
      | .ok n => .ok (if s0.head? = some '-' then -n else n)
  else ParseInt s.toList

/-! ## The data model of `main.go` -/

/-- The struct `apiResponse`; the zero value of a field is what a composite
literal leaves out. -/
structure apiResponse where
  Success : Bool := false
  Data : String := ""
  Error : String := ""
deriving DecidableEq, Repr

/-- A JSON value of the kinds `apiResponse` has. -/
inductive JsonValue where
  | bool (b : Bool)
  | str (s : String)
deriving DecidableEq, Repr

/-- The members `encoding/json` writes for an `apiResponse`, by its struct
tags: `success` always, `data` and `error` under `omitempty`. -/
def apiResponse.encode (resp : apiResponse) : List (String × JsonValue) :=
  [("success", JsonValue.bool resp.Success)]
    ++ (if resp.Data = "" then [] else [("data", JsonValue.str resp.Data)])
    ++ (if resp.Error = "" then [] else [("error", JsonValue.str resp.Error)])

/-- The parts of an `*http.Request` the program or the form decoder reads. -/
structure Request where
  Method : String
  Path : String
  RemoteAddr : String
  RawQuery : String := ""
  Header : List (String × String) := []
  Body : String := ""
deriving DecidableEq, Repr

/-- The decoded form, `url.Values`: a map from a field name to its values. -/
abbrev Values := List (String × List String)

/-- The method `url.Values.Get`: the first value of the key, or the empty
string when there is none. -/
def Values.Get (v : Values) (key : String) : String :=
  match v.lookup key with
  | some (x :: _) => x
  | _ => ""

/-- A call to the hashing primitive, with its arguments. -/
inductive Call where
  | GenerateFromPassword (password : String) (cost : Int)
  | CompareHashAndPassword (hashedPassword password : String)
deriving DecidableEq, Repr

/-- An argument of a `Printf` call. -/
inductive LogArg where
  | str (s : String)
  | duration (ns : Int)
  | err (e : GoError)
deriving DecidableEq, Repr

/-- One `Printf` call on a logger: the format and its arguments. -/
structure LogRecord where
  format : String
  args : List LogArg
deriving DecidableEq, Repr

/-- The `http.ResponseWriter`: the header map, the status written by
`WriteHeader`, the value encoded into the body. -/
structure ResponseWriter where
  header : List (String × String) := []
  status : Option Nat := none
  body : Option apiResponse := none
deriving DecidableEq, Repr

/-- What a handler acts on: the response writer, the calls made to the
primitive so far, what the standard logger has printed so far. -/
structure State where
  w : ResponseWriter := {}
  calls : List Call := []
  log : List LogRecord := []
deriving DecidableEq, Repr

/-- The imported code the handlers call. `GenerateFromPassword` takes, besides
the password and the cost, the entropy the call draws for its salt;
`CompareHashAndPassword` returns `none` for a match (Go `nil`); `Encode` is the
error, if any, of writing the encoded body to the connection. -/
structure Lib where
  ParseForm : Request → Except GoError Values
  GenerateFromPassword : Nat → String → Int → Except GoError String
  CompareHashAndPassword : String → String → Option GoError
  Encode : apiResponse → Option GoError

/-- Go type `http.HandlerFunc`, with the response writer inside the state. -/
abbrev HandlerFunc := Request → State → State

/-- A `*log.Logger`, by what its `Printf` does. -/
structure Logger where
  Printf : String → List LogArg → State → State

/-- The standard logger `log.Default()`, also behind the function `log.Printf`. -/
def stdLogger : Logger where
  Printf := fun format args st => { st with log := st.log ++ [⟨format, args⟩] }

def StatusOK : Nat := 200
def StatusBadRequest : Nat := 400
def StatusMethodNotAllowed : Nat := 405
def StatusInternalServerError : Nat := 500
def MethodPost : String := "POST"

/-- Method `Header().Set` of the response writer. -/
def State.setHeader (st : State) (key value : String) : State :=
  { st with w := { st.w with header := (key, value) :: st.w.header.filter (fun kv => kv.1 ≠ key) } }

/-- Method `WriteHeader`: the first status written is the one sent. -/
def State.WriteHeader (st : State) (status : Nat) : State :=
  match st.w.status with
  | some _ => st
  | none => { st with w := { st.w with status := some status } }

/-- Record a call to the primitive. -/
def State.call (st : State) (c : Call) : State :=
  { st with calls := st.calls ++ [c] }

/-! ## The functions of `main.go` -/

/-- The function `sendResponse`. -/
def sendResponse (lib : Lib) (status : Nat) (resp : apiResponse) (st : State) : State :=
  let st := st.WriteHeader status
  let st := { st with w := { st.w with body := some resp } }
  match lib.Encode resp with
  | some err => stdLogger.Printf "Error encoding response: %v" [LogArg.err err] st
  | none => st

/-- The function `handleHash`; `seed` is the entropy the primitive draws. -/
def handleHash (lib : Lib) (seed : Nat) : HandlerFunc := fun r st =>
  let st := st.setHeader "Content-Type" "application/json"
  if r.Method ≠ MethodPost then
    sendResponse lib StatusMethodNotAllowed { Error := "Method not allowed" } st
  else
    match lib.ParseForm r with
    | .error _ => sendResponse lib StatusBadRequest { Error := "Invalid request" } st
    | .ok form =>
      let raw := form.Get "raw"
      let costStr := form.Get "cost"
      if raw = "" ∨ costStr = "" then
        sendResponse lib StatusBadRequest { Error := "Missing raw or cost params" } st
      else
        match Atoi costStr with
        | .error _ => sendResponse lib StatusBadRequest { Error := "Invalid cost" } st
        | .ok cost =>
          let st := st.call (Call.GenerateFromPassword raw cost)
          match lib.GenerateFromPassword seed raw cost with
          | .error _ =>
            sendResponse lib StatusInternalServerError { Error := "Failed to generate hash" } st
          | .ok hash => sendResponse lib StatusOK { Success := true, Data := hash } st

/-- The function `handleVerify`. -/
def handleVerify (lib : Lib) : HandlerFunc := fun r st =>
  let st := st.setHeader "Content-Type" "application/json"
  if r.Method ≠ MethodPost then
    sendResponse lib StatusMethodNotAllowed { Error := "Method not allowed" } st
  else
    match lib.ParseForm r with
    | .error _ => sendResponse lib StatusBadRequest { Error := "Invalid request" } st
    | .ok form =>
      let raw := form.Get "raw"
      let hash := form.Get "hash"
      if raw = "" ∨ hash = "" then
        sendResponse lib StatusBadRequest { Error := "Missing raw or hash params" } st
      else
        let st := st.call (Call.CompareHashAndPassword hash raw)
        match lib.CompareHashAndPassword hash raw with
        | some _ => sendResponse lib StatusBadRequest { Error := "Invalid password" } st
        | none => sendResponse lib StatusOK { Success := true } st

/-- The function `withLogging`; `start` is the reading of `time.Now()` on
entry and `finish` the reading `time.Since` takes after `next` has returned,
both in nanoseconds. -/
def withLogging (logger : Logger) (start finish : Int) (next : HandlerFunc) : HandlerFunc :=
  fun r st =>
    let st := logger.Printf "Started %s %s from %s"
      [LogArg.str r.Method, LogArg.str r.Path, LogArg.str r.RemoteAddr] st
    let st := next r st
    logger.Printf "Completed %s %s from %v"
      [LogArg.str r.Method, LogArg.str r.Path, LogArg.duration (finish - start)] st

/-! ## Definitions the statements use -/

/-- Value of a run of decimal digits, most significant first, continuing the
accumulator `n`. -/
def digitsVal : List Char → Nat → Nat
  | [], n => n
  | c :: cs, n => digitsVal cs (n * 10 + decVal c)

/-- The bytes after an optional leading sign. -/
def signDigits (l : List Char) : List Char :=
  if l.head? = some '-' ∨ l.head? = some '+' then l.tail else l

/-- A base-10 integer literal, in the words of the specification: an optional
sign followed by one or more decimal digits, and nothing else. -/
def isIntLiteral (s : String) : Bool :=
  !(signDigits s.toList).isEmpty && (signDigits s.toList).all isDec

/-- The integer a run of bytes denotes when it is a base-10 literal. -/
def litVal (l : List Char) : Int :=
  if l.head? = some '-' then -(digitsVal (signDigits l) 0 : Int)
  else (digitsVal (signDigits l) 0 : Int)

/-- The integer a base-10 literal denotes. -/
def literalValue (s : String) : Int := litVal s.toList

/-- A form field that is absent, or present with an empty first value. -/
def Values.absentOrEmpty (v : Values) (key : String) : Bool :=
  match v.lookup key with
  | none => true
  | some [] => true
  | some (x :: _) => decide (x = "")

/-- The state in which the server hands a request to a handler: nothing
written to the response, no call made, nothing logged. -/
def State.fresh : State := {}

/-- The status and the envelope a handler has sent, once both are written. -/
def State.response (st : State) : Option (Nat × apiResponse) :=
  match st.w.status, st.w.body with
  | some code, some resp => some (code, resp)
  | _, _ => none

/-- The envelope invariant relating a status and the envelope sent with it. -/
def envelopeInvariant (code : Nat) (resp : apiResponse) : Prop :=
  (resp.Success = true ↔ code = 200)
    ∧ (code ≠ 200 → resp.Success = false ∧ resp.Error ≠ "" ∧ resp.Data = "")
    ∧ (code = 200 → resp.Error = "")
    ∧ (resp.Data = "" → ∀ v, ("data", v) ∉ resp.encode)
    ∧ (resp.Error = "" → ∀ v, ("error", v) ∉ resp.encode)

/-- The round-trip law of the hashing primitive: a hash it generated from a
password compares equal to that password. -/
def Lib.RoundTrip (lib : Lib) : Prop :=
  ∀ (seed : Nat) (password : String) (cost : Int) (hash : String),
    lib.GenerateFromPassword seed password cost = .ok hash →
      lib.CompareHashAndPassword hash password = none

/-- The bytes of a string, Go `[]byte(s)`: its UTF-8 encoding. -/
def bytesOf (s : String) : List UInt8 := s.toList.flatMap String.utf8EncodeChar

/-- What the imported `bcrypt` reads of a password: the password followed by a
zero byte, repeated cyclically, up to the 72 bytes (18 words) its key schedule
takes. Of a password of 72 bytes or more these are its first 72 bytes. -/
def bcryptKey (password : String) : List UInt8 :=
  let ckey := bytesOf password ++ [0]
  (List.range 72).map (fun i => ckey.getD (i % ckey.length) 0)

/-- The comparison law of the hashing primitive: a hash it generated from a
password compares equal to exactly the passwords it reads as the same key. It
contains the round-trip law; passwords read as the same key it cannot tell
apart; that passwords read as different keys are rejected is the collision
resistance of its digest. -/
def Lib.KeyedByBcryptKey (lib : Lib) : Prop :=
  ∀ (seed : Nat) (password other : String) (cost : Int) (hash : String),
    lib.GenerateFromPassword seed password cost = .ok hash →
      (lib.CompareHashAndPassword hash other = none ↔ bcryptKey other = bcryptKey password)

/-! ## Concrete inputs for the examples -/

/-- A stand-in for the imported code, used to run the handlers on concrete
requests: the form decoder is `decode`, the primitive accepts costs 4 to 31 and
tags the password, writing the body succeeds. -/
def demoLibAt (decode : Request → Except GoError Values) : Lib where
  ParseForm := decode
  GenerateFromPassword := fun _ password cost =>
    if 4 ≤ cost ∧ cost ≤ 31 then .ok ("$demo$" ++ password)
    else .error ⟨"invalid cost"⟩
  CompareHashAndPassword := fun hash password =>
    if hash = "$demo$" ++ password then none else some ⟨"mismatch"⟩
  Encode := fun _ => none

/-- The stand-in whose form decoder returns `form` for every request. -/
def demoLib (form : Except GoError Values) : Lib := demoLibAt (fun _ => form)

/-- A form decoder for two requests: `hashForm` for the path `/hash`,
`verifyForm` for any other. -/
def decodeByPath (hashForm verifyForm : Values) (r : Request) : Except GoError Values :=
  if r.Path = "/hash" then .ok hashForm else .ok verifyForm

/-- A request with the given method to `/hash`. -/
def hashRequest (method : String) : Request :=
  { Method := method, Path := "/hash", RemoteAddr := "10.0.0.1:4711" }

/-- A request with the given method to `/verify`. -/
def verifyRequest (method : String) : Request :=
  { Method := method, Path := "/verify", RemoteAddr := "10.0.0.1:4711" }

/-- Decoded form `raw=secret123&cost=abc`. -/
def formCostAbc : Values := [("raw", ["secret123"]), ("cost", ["abc"])]

/-- Decoded form `raw=&cost=abc`. -/
def formEmptyRawCostAbc : Values := [("raw", [""]), ("cost", ["abc"])]

/-- Decoded form `raw=secret123&cost=10`. -/
def formCost10 : Values := [("raw", ["secret123"]), ("cost", ["10"])]

/-- Decoded form `raw=secret123&cost=-1`. -/
def formCostMinus1 : Values := [("raw", ["secret123"]), ("cost", ["-1"])]

/-- Decoded form `raw=secret123&cost=100000000000000000000`, a cost of 21 digits. -/
def formCostHuge : Values := [("raw", ["secret123"]), ("cost", ["100000000000000000000"])]

/-- Decoded form `raw=secret123&hash=$demo$secret123`. -/
def formVerifyGood : Values := [("raw", ["secret123"]), ("hash", ["$demo$secret123"])]

/-- Decoded form `raw=secret123&hash=garbage`. -/
def formVerifyGarbage : Values := [("raw", ["secret123"]), ("hash", ["garbage"])]

/-- A key written as text, one character for each byte. -/
def keyText (key : List UInt8) : String := String.mk (key.map (fun b => Char.ofNat b.toNat))

/-- A stand-in for the imported code that, like `bcrypt`, reads a password
through `bcryptKey`: the form decoder is `decode`, the primitive refuses
passwords of more than 72 bytes and costs above 31, the hash is the tagged key,
writing the body succeeds. -/
def keyedLibAt (decode : Request → Except GoError Values) : Lib where
  ParseForm := decode
  GenerateFromPassword := fun _ password cost =>
    if (bytesOf password).length > 72 then .error ⟨"password length exceeds 72 bytes"⟩
    else if cost > 31 then .error ⟨"invalid cost"⟩
    else .ok ("$key$" ++ keyText (bcryptKey password))
  CompareHashAndPassword := fun hash password =>
    if hash = "$key$" ++ keyText (bcryptKey password) then none else some ⟨"mismatch"⟩
  Encode := fun _ => none

/-- A secret of 72 bytes, each the letter `a`. -/
def secret72 : String := String.mk (List.replicate 72 'a')

/-- The secret `secret72` followed by the letter `b`: 73 bytes, the same first 72. -/
def secret73 : String := String.mk (List.replicate 72 'a' ++ ['b'])

/-- Decoded form with `raw` the secret `secret72` and `cost=10`. -/
def formHash72 : Values := [("raw", [secret72]), ("cost", ["10"])]

/-- Decoded form with `raw` the secret `secret73` and `hash` the hash the
stand-in generates from `secret72`. -/
def formVerify73 : Values := [("raw", [secret73]), ("hash", ["$key$" ++ secret72])]

/-- Decoded form with `raw=secret124` and `hash` the hash the stand-in
generates from `secret123`. -/
def formVerifyOther : Values :=
  [("raw", ["secret124"]), ("hash", ["$key$" ++ keyText (bcryptKey "secret123")])]

/-! ## What `strconv.Atoi` accepts -/

theorem isDec_iff (c : Char) : isDec c = true ↔ 48 ≤ c.toNat ∧ c.toNat ≤ 57 := by
  simp [isDec]

theorem decVal_le (c : Char) (h : isDec c = true) : decVal c ≤ 9 := by
  have := (isDec_iff c).1 h
  simp only [decVal, Char.reduceToNat]
  omega

theorem le_digitsVal (l : List Char) (n : Nat) : n ≤ digitsVal l n := by
  induction l generalizing n with
  | nil => simp [digitsVal]
  | cons c cs ih =>
    have := ih (n * 10 + decVal c)
    simp only [digitsVal]
    generalize decVal c = d at this ⊢
    generalize digitsVal cs (n * 10 + d) = v at this ⊢
    omega

theorem digitsVal_lt (l : List Char) (n : Nat) (h : l.all isDec = true) :
    digitsVal l n < (n + 1) * 10 ^ l.length := by
  induction l generalizing n with
  | nil => simp [digitsVal]
  | cons c cs ih =>
    simp only [List.all_cons, Bool.and_eq_true] at h
    have hd := decVal_le c h.1
    have := ih (n * 10 + decVal c) h.2
    simp only [digitsVal, List.length_cons, pow_succ]
    calc digitsVal cs (n * 10 + decVal c) < (n * 10 + decVal c + 1) * 10 ^ cs.length := this
      _ ≤ ((n + 1) * 10) * 10 ^ cs.length := Nat.mul_le_mul_right _ (by omega)
      _ = (n + 1) * (10 ^ cs.length * 10) := by ring

/-- The fast loop on a run of digits returns their value. -/
theorem fastLoop_all (l : List Char) (n : Nat) (h : l.all isDec = true) :
    Atoi.fastLoop l (n : Int) = .ok (digitsVal l n : Int) := by
  induction l generalizing n with
  | nil => simp [Atoi.fastLoop, digitsVal]
  | cons c cs ih =>
    simp only [List.all_cons, Bool.and_eq_true] at h
    simp only [Atoi.fastLoop, h.1, if_true, digitsVal]
    rw [← ih (n * 10 + decVal c) h.2]
    push_cast
    rfl

/-- The fast loop stops with a syntax error at a byte that is no digit. -/
theorem fastLoop_not_all (l : List Char) (n : Int) (h : l.all isDec = false) :
    Atoi.fastLoop l n = .error .ErrSyntax := by
  induction l generalizing n with
  | nil => simp at h
  | cons c cs ih =>
    simp only [Atoi.fastLoop]
    by_cases hc : isDec c = true
    · simp only [hc, if_true]
      apply ih
      simpa [hc] using h
    · simp [hc]

/-- The loop of `ParseUint` on a run of digits: their value when it fits
`uint64`, a range error otherwise. -/
theorem loop_all (l : List Char) (n : Nat) (h : l.all isDec = true) (hn : n ≤ 2 ^ 64 - 1) :
    ParseUint.loop (maxUint64 / 10 + 1) (2 ^ intSize - 1) l n =
      if digitsVal l n ≤ 2 ^ 64 - 1 then .ok (digitsVal l n) else .error .ErrRange := by
  induction l generalizing n with
  | nil =>
    simp only [ParseUint.loop, digitsVal]
    rw [if_pos hn]
  | cons c cs ih =>
    simp only [List.all_cons, Bool.and_eq_true] at h
    have hd := decVal_le c h.1
    have hge := le_digitsVal cs (n * 10 + decVal c)
    simp only [ParseUint.loop, h.1, if_true, digitsVal, maxUint64, intSize]
    norm_num only at hn hge ⊢
    by_cases h1 : 1844674407370955162 ≤ n
    · rw [if_pos h1, if_neg (by omega)]
    · rw [if_neg h1]
      by_cases h2 : n * 10 + decVal c ≤ 18446744073709551615
      · have e1 : n * 10 % 18446744073709551616 = n * 10 := Nat.mod_eq_of_lt (by omega)
        have e2 : (n * 10 + decVal c) % 18446744073709551616 = n * 10 + decVal c :=
          Nat.mod_eq_of_lt (by omega)
        rw [e1, e2, if_neg (by omega)]
        have := ih (n * 10 + decVal c) h.2 (by norm_num only; omega)
        simp only [maxUint64, intSize] at this
        norm_num only at this
        exact this
      · have e1 : n * 10 % 18446744073709551616 = n * 10 := Nat.mod_eq_of_lt (by omega)
        rw [e1, if_pos (by omega), if_neg (by omega)]

theorem loop_not_all (l : List Char) (n : Nat) (h : l.all isDec = false) :
    ∃ e, ParseUint.loop (maxUint64 / 10 + 1) (2 ^ intSize - 1) l n = .error e := by
  induction l generalizing n with
  | nil => simp at h
  | cons c cs ih =>
    simp only [ParseUint.loop]
    by_cases hc : isDec c = true
    · have hcs : cs.all isDec = false := by simpa [hc] using h
      simp only [hc, if_true]
      split
      · exact ⟨_, rfl⟩
      · split
        · exact ⟨_, rfl⟩
        · exact ih _ hcs
    · simp [hc]

theorem length_le_utf8ByteSize_go (l : List Char) : l.length ≤ String.utf8ByteSize.go l := by
  induction l with
  | nil => simp [String.utf8ByteSize.go]
  | cons c cs ih =>
    have := Char.utf8Size_pos c
    simp only [String.utf8ByteSize.go, List.length_cons]
    omega

/-- A string has at most as many characters as bytes. -/
theorem length_le_utf8ByteSize (s : String) : s.toList.length ≤ s.utf8ByteSize := by
  cases s with
  | mk l => exact length_le_utf8ByteSize_go l

theorem signDigits_length_le (l : List Char) : (signDigits l).length ≤ l.length := by
  unfold signDigits
  split
  · simp
  · exact Nat.le_refl _

theorem ParseInt_signDigits (l : List Char) :
    (if l.head? = some '+' ∨ l.head? = some '-' then l.tail else l) = signDigits l := by
  unfold signDigits
  by_cases h1 : l.head? = some '+' <;> by_cases h2 : l.head? = some '-' <;> simp [h1, h2]

theorem signDigits_ne_nil (l : List Char) (h : signDigits l ≠ []) : l ≠ [] := by
  intro hl
  subst hl
  exact h (by simp [signDigits])

theorem ParseUint_all (l : List Char) (hne : l ≠ []) (hall : l.all isDec = true) :
    ParseUint l =
      if digitsVal l 0 ≤ 2 ^ 64 - 1 then .ok (digitsVal l 0) else .error .ErrRange := by
  unfold ParseUint
  rw [if_neg hne]
  exact loop_all l 0 hall (by norm_num)

theorem ParseUint_not_all (l : List Char) (hall : l.all isDec = false) :
    ∃ e, ParseUint l = .error e := by
  unfold ParseUint
  split
  · exact ⟨_, rfl⟩
  · exact loop_not_all l 0 hall

/-- On a literal, `ParseInt` returns its value when that fits a 64-bit `int`,
and a range error otherwise. -/
theorem ParseInt_literal (l : List Char) (hne : signDigits l ≠ [])
    (hall : (signDigits l).all isDec = true) :
    ParseInt l =
      if -(2 : Int) ^ 63 ≤ litVal l ∧ litVal l < (2 : Int) ^ 63 then .ok (litVal l)
      else .error .ErrRange := by
  unfold ParseInt
  rw [if_neg (signDigits_ne_nil l hne)]
  simp only [ParseInt_signDigits, ParseUint_all _ hne hall, litVal, intSize]
  generalize digitsVal (signDigits l) 0 = v
  by_cases hneg : l.head? = some '-'
  · simp only [hneg, decide_True, if_true]
    by_cases hv : v ≤ 2 ^ 64 - 1
    · rw [if_pos hv]
      simp only [Bool.true_eq_false, false_and, if_false, true_and]
      norm_num only at hv ⊢
      by_cases h2 : v > 9223372036854775808
      · rw [if_pos h2, if_neg (by omega)]
      · rw [if_neg h2, if_pos (by omega)]
    · rw [if_neg hv]
      norm_num only at hv ⊢
      rw [if_neg (by omega)]
  · simp only [hneg, decide_False, if_false]
    by_cases hv : v ≤ 2 ^ 64 - 1
    · rw [if_pos hv]
      simp only [Bool.false_eq_true, false_and, if_false, true_and]
      norm_num only at hv ⊢
      by_cases h2 : v ≥ 9223372036854775808
      · rw [if_pos h2, if_neg (by omega)]
      · rw [if_neg h2, if_pos (by omega)]
    · rw [if_neg hv]
      norm_num only at hv ⊢
      rw [if_neg (by omega)]

theorem ParseInt_not_literal (l : List Char)
    (h : signDigits l = [] ∨ (signDigits l).all isDec = false) :
    ∃ e, ParseInt l = .error e := by
  unfold ParseInt
  split
  · exact ⟨_, rfl⟩
  · simp only [ParseInt_signDigits]
    have : ∃ e, ParseUint (signDigits l) = .error e := by
      rcases h with h | h
      · rw [h]; exact ⟨_, rfl⟩
      · exact ParseUint_not_all _ h
    obtain ⟨e, he⟩ := this
    rw [he]
    exact ⟨_, rfl⟩

theorem isIntLiteral_iff (s : String) :
    isIntLiteral s = true ↔ signDigits s.toList ≠ [] ∧ (signDigits s.toList).all isDec = true := by
  unfold isIntLiteral
  cases signDigits s.toList <;> simp

/-- A literal short enough for the fast path is within the range of `int`. -/
theorem fast_literal (l : List Char)
    (hall : (signDigits l).all isDec = true) (hlen : l.length < 19) :
    -(2 : Int) ^ 63 ≤ litVal l ∧ litVal l < (2 : Int) ^ 63 := by
  have h1 := digitsVal_lt (signDigits l) 0 hall
  have h2 := signDigits_length_le l
  have h3 : 10 ^ (signDigits l).length ≤ 10 ^ 18 :=
    Nat.pow_le_pow_right (by norm_num) (by omega)
  unfold litVal
  generalize digitsVal (signDigits l) 0 = v at h1
  generalize 10 ^ (signDigits l).length = p at h1 h3
  norm_num only at h1 h3 ⊢
  split <;> omega

theorem fast_signDigits (l : List Char) :
    (if decide (l.head? = some '-' ∨ l.head? = some '+') = true then l.tail else l)
      = signDigits l := by
  unfold signDigits
  by_cases h : l.head? = some '-' ∨ l.head? = some '+'
  · rw [if_pos h, if_pos (decide_eq_true h)]
  · rw [if_neg h, if_neg (by simpa using h)]

theorem utf8ByteSize_pos_ne_nil (s : String) (h : 0 < s.utf8ByteSize) : s.toList ≠ [] := by
  intro hl
  cases s with
  | mk l =>
    simp only [String.toList] at hl
    subst hl
    simp [String.utf8ByteSize, String.utf8ByteSize.go] at h

/-- On a base-10 literal, `Atoi` returns its value when that fits a 64-bit
`int`, and a range error otherwise. -/
theorem Atoi_literal (s : String) (h : isIntLiteral s = true) :
    Atoi s =
      if -(2 : Int) ^ 63 ≤ literalValue s ∧ literalValue s < (2 : Int) ^ 63
      then .ok (literalValue s) else .error .ErrRange := by
  obtain ⟨hne, hall⟩ := (isIntLiteral_iff s).1 h
  have hlen : ¬ (signDigits s.toList).length < 1 := by
    cases hd : signDigits s.toList with
    | nil => exact absurd hd hne
    | cons a b => simp
  unfold Atoi literalValue
  simp only []
  split
  · rename_i hfast
    rw [fast_signDigits, if_neg (fun hh => hlen hh.2)]
    have hb := length_le_utf8ByteSize s
    rw [if_pos (fast_literal s.toList hall (by omega))]
    have := fastLoop_all (signDigits s.toList) 0 hall
    simp only [Nat.cast_zero] at this
    rw [this]
    simp only [litVal]
  · exact ParseInt_literal s.toList hne hall

/-- On a string that is no base-10 literal, `Atoi` returns an error. -/
theorem Atoi_not_literal (s : String) (h : isIntLiteral s = false) :
    ∃ e, Atoi s = .error e := by
  have h2 : signDigits s.toList = [] ∨ (signDigits s.toList).all isDec = false := by
    by_cases hd : signDigits s.toList = []
    · exact Or.inl hd
    · right
      by_contra hall
      have := (isIntLiteral_iff s).2 ⟨hd, by simpa using hall⟩
      simp [h] at this
  unfold Atoi
  simp only []
  split
  · rename_i hfast
    rw [fast_signDigits]
    split
    · exact ⟨_, rfl⟩
    · rename_i hl
      rcases h2 with h2 | h2
      · exfalso
        apply hl
        have hnil := utf8ByteSize_pos_ne_nil s hfast.1
        constructor
        · unfold signDigits at h2
          by_cases hs : s.toList.head? = some '-' ∨ s.toList.head? = some '+'
          · exact decide_eq_true hs
          · rw [if_neg hs] at h2
            exact absurd h2 hnil
        · rw [h2]
          decide
      · rw [fastLoop_not_all _ 0 h2]
        exact ⟨_, rfl⟩
  · exact ParseInt_not_literal s.toList h2

/-- The strings `Atoi` accepts are the base-10 literals whose value fits a 64-bit
`int`, and it returns that value. -/
theorem Atoi_eq_ok_iff (s : String) (n : Int) :
    Atoi s = .ok n ↔
      isIntLiteral s = true ∧ literalValue s = n ∧ -(2 : Int) ^ 63 ≤ n ∧ n < (2 : Int) ^ 63 := by
  constructor
  · intro h
    cases hl : isIntLiteral s with
    | false =>
      obtain ⟨e, he⟩ := Atoi_not_literal s hl
      rw [he] at h
      cases h
    | true =>
      rw [Atoi_literal s hl] at h
      split at h
      · rename_i hr
        injection h with h
        subst h
        exact ⟨rfl, rfl, hr.1, hr.2⟩
      · cases h
  · rintro ⟨hl, hv, lo, hi⟩
    subst hv
    rw [Atoi_literal s hl, if_pos ⟨lo, hi⟩]

theorem isIntLiteral_ne_empty (s : String) (h : isIntLiteral s = true) : s ≠ "" := by
  intro hs
  subst hs
  revert h
  decide

/-! ## The form and the response writer -/

theorem Values.Get_eq_empty_iff (v : Values) (key : String) :
    v.Get key = "" ↔ v.absentOrEmpty key = true := by
  unfold Values.Get Values.absentOrEmpty
  cases v.lookup key with
  | none => simp
  | some vs =>
    cases vs with
    | nil => simp
    | cons x xs => simp

/-- After `sendResponse` on a writer with no status yet, the response is the
status and the envelope passed to it. -/
theorem sendResponse_response (lib : Lib) (code : Nat) (resp : apiResponse) (st : State)
    (h : st.w.status = none) :
    (sendResponse lib code resp st).response = some (code, resp) := by
  unfold sendResponse State.WriteHeader
  rw [h]
  cases lib.Encode resp <;> rfl

theorem sendResponse_status (lib : Lib) (code : Nat) (resp : apiResponse) (st : State)
    (h : st.w.status = none) :
    (sendResponse lib code resp st).w.status = some code := by
  unfold sendResponse State.WriteHeader
  rw [h]
  cases lib.Encode resp <;> rfl

theorem sendResponse_calls (lib : Lib) (code : Nat) (resp : apiResponse) (st : State) :
    (sendResponse lib code resp st).calls = st.calls := by
  unfold sendResponse State.WriteHeader
  cases st.w.status <;> cases lib.Encode resp <;> rfl

theorem response_status (st : State) (code : Nat) (resp : apiResponse)
    (h : st.response = some (code, resp)) : st.w.status = some code ∧ st.w.body = some resp := by
  unfold State.response at h
  cases hs : st.w.status <;> cases hb : st.w.body <;> simp_all

/-! ## The paths through the handlers -/

theorem handleHash_not_post (lib : Lib) (seed : Nat) (r : Request) (st : State)
    (hm : r.Method ≠ "POST") :
    handleHash lib seed r st
      = sendResponse lib StatusMethodNotAllowed { Error := "Method not allowed" }
          (st.setHeader "Content-Type" "application/json") := by
  unfold handleHash
  simp only [MethodPost]
  rw [if_pos hm]

theorem handleHash_decode_error (lib : Lib) (seed : Nat) (r : Request) (st : State)
    (e : GoError) (hm : r.Method = "POST") (hf : lib.ParseForm r = .error e) :
    handleHash lib seed r st
      = sendResponse lib StatusBadRequest { Error := "Invalid request" }
          (st.setHeader "Content-Type" "application/json") := by
  unfold handleHash
  simp only [MethodPost, hm, ne_eq, not_true_eq_false, if_false, hf]

theorem handleHash_missing (lib : Lib) (seed : Nat) (r : Request) (st : State)
    (form : Values) (hm : r.Method = "POST") (hf : lib.ParseForm r = .ok form)
    (h : form.Get "raw" = "" ∨ form.Get "cost" = "") :
    handleHash lib seed r st
      = sendResponse lib StatusBadRequest { Error := "Missing raw or cost params" }
          (st.setHeader "Content-Type" "application/json") := by
  unfold handleHash
  simp only [MethodPost, hm, ne_eq, not_true_eq_false, if_false, hf]
  rw [if_pos h]

theorem handleHash_atoi_error (lib : Lib) (seed : Nat) (r : Request) (st : State)
    (form : Values) (e : NumError) (hm : r.Method = "POST") (hf : lib.ParseForm r = .ok form)
    (hraw : form.Get "raw" ≠ "") (hcost : form.Get "cost" ≠ "")
    (ha : Atoi (form.Get "cost") = .error e) :
    handleHash lib seed r st
      = sendResponse lib StatusBadRequest { Error := "Invalid cost" }
          (st.setHeader "Content-Type" "application/json") := by
  unfold handleHash
  simp only [MethodPost, hm, ne_eq, not_true_eq_false, if_false, hf, hraw, hcost, or_self, ha]

theorem handleHash_generate_error (lib : Lib) (seed : Nat) (r : Request) (st : State)
    (form : Values) (n : Int) (e : GoError) (hm : r.Method = "POST")
    (hf : lib.ParseForm r = .ok form)
    (hraw : form.Get "raw" ≠ "") (hcost : form.Get "cost" ≠ "")
    (ha : Atoi (form.Get "cost") = .ok n)
    (hg : lib.GenerateFromPassword seed (form.Get "raw") n = .error e) :
    handleHash lib seed r st
      = sendResponse lib StatusInternalServerError { Error := "Failed to generate hash" }
          ((st.setHeader "Content-Type" "application/json").call
            (Call.GenerateFromPassword (form.Get "raw") n)) := by
  unfold handleHash
  simp only [MethodPost, hm, ne_eq, not_true_eq_false, if_false, hf, hraw, hcost, or_self, ha, hg]

theorem handleHash_generate_ok (lib : Lib) (seed : Nat) (r : Request) (st : State)
    (form : Values) (n : Int) (hash : String) (hm : r.Method = "POST")
    (hf : lib.ParseForm r = .ok form)
    (hraw : form.Get "raw" ≠ "") (hcost : form.Get "cost" ≠ "")
    (ha : Atoi (form.Get "cost") = .ok n)
    (hg : lib.GenerateFromPassword seed (form.Get "raw") n = .ok hash) :
    handleHash lib seed r st
      = sendResponse lib StatusOK { Success := true, Data := hash }
          ((st.setHeader "Content-Type" "application/json").call
            (Call.GenerateFromPassword (form.Get "raw") n)) := by
  unfold handleHash
  simp only [MethodPost, hm, ne_eq, not_true_eq_false, if_false, hf, hraw, hcost, or_self, ha, hg]

theorem handleVerify_not_post (lib : Lib) (r : Request) (st : State)
    (hm : r.Method ≠ "POST") :
    handleVerify lib r st
      = sendResponse lib StatusMethodNotAllowed { Error := "Method not allowed" }
          (st.setHeader "Content-Type" "application/json") := by
  unfold handleVerify
  simp only [MethodPost]
  rw [if_pos hm]

theorem handleVerify_decode_error (lib : Lib) (r : Request) (st : State)
    (e : GoError) (hm : r.Method = "POST") (hf : lib.ParseForm r = .error e) :
    handleVerify lib r st
      = sendResponse lib StatusBadRequest { Error := "Invalid request" }
          (st.setHeader "Content-Type" "application/json") := by
  unfold handleVerify
  simp only [MethodPost, hm, ne_eq, not_true_eq_false, if_false, hf]

theorem handleVerify_missing (lib : Lib) (r : Request) (st : State)
    (form : Values) (hm : r.Method = "POST") (hf : lib.ParseForm r = .ok form)
    (h : form.Get "raw" = "" ∨ form.Get "hash" = "") :
    handleVerify lib r st
      = sendResponse lib StatusBadRequest { Error := "Missing raw or hash params" }
          (st.setHeader "Content-Type" "application/json") := by
  unfold handleVerify
  simp only [MethodPost, hm, ne_eq, not_true_eq_false, if_false, hf]
  rw [if_pos h]

theorem handleVerify_mismatch (lib : Lib) (r : Request) (st : State)
    (form : Values) (e : GoError) (hm : r.Method = "POST") (hf : lib.ParseForm r = .ok form)
    (hraw : form.Get "raw" ≠ "") (hhash : form.Get "hash" ≠ "")
    (hc : lib.CompareHashAndPassword (form.Get "hash") (form.Get "raw") = some e) :
    handleVerify lib r st
      = sendResponse lib StatusBadRequest { Error := "Invalid password" }
          ((st.setHeader "Content-Type" "application/json").call
            (Call.CompareHashAndPassword (form.Get "hash") (form.Get "raw"))) := by
  unfold handleVerify
  simp only [MethodPost, hm, ne_eq, not_true_eq_false, if_false, hf, hraw, hhash, or_self, hc]

theorem handleVerify_match (lib : Lib) (r : Request) (st : State)
    (form : Values) (hm : r.Method = "POST") (hf : lib.ParseForm r = .ok form)
    (hraw : form.Get "raw" ≠ "") (hhash : form.Get "hash" ≠ "")
    (hc : lib.CompareHashAndPassword (form.Get "hash") (form.Get "raw") = none) :
    handleVerify lib r st
      = sendResponse lib StatusOK { Success := true }
          ((st.setHeader "Content-Type" "application/json").call
            (Call.CompareHashAndPassword (form.Get "hash") (form.Get "raw"))) := by
  unfold handleVerify
  simp only [MethodPost, hm, ne_eq, not_true_eq_false, if_false, hf, hraw, hhash, or_self, hc]

/-- Every run of `handleHash` from the fresh state ends in one of six
responses; the last one records how it came about. -/
theorem handleHash_response_cases (lib : Lib) (seed : Nat) (r : Request) :
    (handleHash lib seed r State.fresh).response
        = some (405, { Error := "Method not allowed" })
      ∨ (handleHash lib seed r State.fresh).response
        = some (400, { Error := "Invalid request" })
      ∨ (handleHash lib seed r State.fresh).response
        = some (400, { Error := "Missing raw or cost params" })
      ∨ (handleHash lib seed r State.fresh).response
        = some (400, { Error := "Invalid cost" })
      ∨ (handleHash lib seed r State.fresh).response
        = some (500, { Error := "Failed to generate hash" })
      ∨ ∃ form n h, r.Method = "POST" ∧ lib.ParseForm r = .ok form ∧ form.Get "raw" ≠ ""
          ∧ Atoi (form.Get "cost") = .ok n
          ∧ lib.GenerateFromPassword seed (form.Get "raw") n = .ok h
          ∧ (handleHash lib seed r State.fresh).response
              = some (200, { Success := true, Data := h }) := by
  by_cases hm : r.Method = "POST"
  · cases hf : lib.ParseForm r with
    | error e =>
      right; left
      rw [handleHash_decode_error lib seed r State.fresh e hm hf]
      exact sendResponse_response _ _ _ _ rfl
    | ok form =>
      by_cases hmiss : form.Get "raw" = "" ∨ form.Get "cost" = ""
      · right; right; left
        rw [handleHash_missing lib seed r State.fresh form hm hf hmiss]
        exact sendResponse_response _ _ _ _ rfl
      · have hraw : form.Get "raw" ≠ "" := fun h => hmiss (Or.inl h)
        have hcost : form.Get "cost" ≠ "" := fun h => hmiss (Or.inr h)
        cases ha : Atoi (form.Get "cost") with
        | error e =>
          right; right; right; left
          rw [handleHash_atoi_error lib seed r State.fresh form e hm hf hraw hcost ha]
          exact sendResponse_response _ _ _ _ rfl
        | ok n =>
          cases hg : lib.GenerateFromPassword seed (form.Get "raw") n with
          | error e =>
            right; right; right; right; left
            rw [handleHash_generate_error lib seed r State.fresh form n e hm hf hraw hcost ha hg]
            exact sendResponse_response _ _ _ _ rfl
          | ok h =>
            right; right; right; right; right
            refine ⟨form, n, h, hm, rfl, hraw, ha, hg, ?_⟩
            rw [handleHash_generate_ok lib seed r State.fresh form n h hm hf hraw hcost ha hg]
            exact sendResponse_response _ _ _ _ rfl
  · left
    rw [handleHash_not_post lib seed r State.fresh hm]
    exact sendResponse_response _ _ _ _ rfl

/-- Every run of `handleVerify` from the fresh state ends in one of five
responses; the last two record what the primitive said. -/
theorem handleVerify_response_cases (lib : Lib) (r : Request) :
    (handleVerify lib r State.fresh).response
        = some (405, { Error := "Method not allowed" })
      ∨ (handleVerify lib r State.fresh).response
        = some (400, { Error := "Invalid request" })
      ∨ (handleVerify lib r State.fresh).response
        = some (400, { Error := "Missing raw or hash params" })
      ∨ (handleVerify lib r State.fresh).response
        = some (400, { Error := "Invalid password" })
      ∨ ∃ form, r.Method = "POST" ∧ lib.ParseForm r = .ok form ∧ form.Get "raw" ≠ ""
          ∧ form.Get "hash" ≠ ""
          ∧ lib.CompareHashAndPassword (form.Get "hash") (form.Get "raw") = none
          ∧ (handleVerify lib r State.fresh).response = some (200, { Success := true }) := by
  by_cases hm : r.Method = "POST"
  · cases hf : lib.ParseForm r with
    | error e =>
      right; left
      rw [handleVerify_decode_error lib r State.fresh e hm hf]
      exact sendResponse_response _ _ _ _ rfl
    | ok form =>
      by_cases hmiss : form.Get "raw" = "" ∨ form.Get "hash" = ""
      · right; right; left
        rw [handleVerify_missing lib r State.fresh form hm hf hmiss]
        exact sendResponse_response _ _ _ _ rfl
      · have hraw : form.Get "raw" ≠ "" := fun h => hmiss (Or.inl h)
        have hhash : form.Get "hash" ≠ "" := fun h => hmiss (Or.inr h)
        cases hc : lib.CompareHashAndPassword (form.Get "hash") (form.Get "raw") with
        | some e =>
          right; right; right; left
          rw [handleVerify_mismatch lib r State.fresh form e hm hf hraw hhash hc]
          exact sendResponse_response _ _ _ _ rfl
        | none =>
          right; right; right; right
          refine ⟨form, hm, rfl, hraw, hhash, hc, ?_⟩
          rw [handleVerify_match lib r State.fresh form hm hf hraw hhash hc]
          exact sendResponse_response _ _ _ _ rfl
  · left
    rw [handleVerify_not_post lib r State.fresh hm]
    exact sendResponse_response _ _ _ _ rfl

/-- The log after `withLogging` around any handler: what the handler left,
started from the log with the first record added, then the second record. -/
theorem withLogging_log (start finish : Int) (next : HandlerFunc) (r : Request) (st : State) :
    (withLogging stdLogger start finish next r st).log
      = (next r { st with log := st.log ++ [⟨"Started %s %s from %s",
            [LogArg.str r.Method, LogArg.str r.Path, LogArg.str r.RemoteAddr]⟩] }).log
        ++ [⟨"Completed %s %s from %v",
            [LogArg.str r.Method, LogArg.str r.Path, LogArg.duration (finish - start)]⟩] :=
  rfl

theorem response_code_eq {a b : Nat} {x y : apiResponse}
    (h : (some (a, x) : Option (Nat × apiResponse)) = some (b, y)) : a = b := by
  injection h with h
  injection h

/-- The stand-in primitive satisfies the round-trip law. -/
theorem demoLibAt_roundTrip (decode : Request → Except GoError Values) :
    (demoLibAt decode).RoundTrip := by
  intro seed password cost hash hg
  simp only [demoLibAt] at hg ⊢
  split at hg
  · injection hg with hg
    subst hg
    simp
  · cases hg

theorem ofNat_toNat_of_lt (n : Nat) (hn : n < 256) : (Char.ofNat n).toNat = n := by
  have hv : n.isValidChar := Or.inl (by omega)
  simp only [Char.ofNat, hv, dite_true, Char.ofNatAux, Char.toNat]
  rfl

theorem byteChar_inj (b c : UInt8) (h : Char.ofNat b.toNat = Char.ofNat c.toNat) : b = c := by
  have hb : b.toNat < 256 := UInt8.toNat_lt b
  have hc : c.toNat < 256 := UInt8.toNat_lt c
  have := congrArg Char.toNat h
  rw [ofNat_toNat_of_lt _ hb, ofNat_toNat_of_lt _ hc] at this
  cases b with
  | mk v =>
    cases c with
    | mk w =>
      simp only [UInt8.toNat] at this
      rw [BitVec.eq_of_toNat_eq this]

theorem map_byteChar_inj (k l : List UInt8)
    (h : k.map (fun b => Char.ofNat b.toNat) = l.map (fun b => Char.ofNat b.toNat)) : k = l := by
  induction k generalizing l with
  | nil =>
    cases l with
    | nil => rfl
    | cons a t => simp at h
  | cons a t ih =>
    cases l with
    | nil => simp at h
    | cons b u =>
      simp only [List.map_cons, List.cons.injEq] at h
      rw [byteChar_inj a b h.1, ih u h.2]

/-- Of a password of 72 bytes or more, the key is its first 72 bytes. -/
theorem bcryptKey_eq_take (s : String) (h : 72 ≤ (bytesOf s).length) :
    bcryptKey s = (bytesOf s).take 72 := by
  unfold bcryptKey
  simp only []
  generalize bytesOf s = bs at h
  apply List.ext_getElem
  · simp only [List.length_map, List.length_range, List.length_take]
    omega
  · intro i h1 h2
    simp only [List.length_map, List.length_range] at h1
    have hmod : i % (bs ++ [0]).length = i := by
      apply Nat.mod_eq_of_lt
      simp only [List.length_append, List.length_singleton]
      omega
    simp only [List.getElem_map, List.getElem_range, hmod, List.getElem_take]
    have hi : i < bs.length := by omega
    rw [List.getD_eq_getElem _ _ (by simp only [List.length_append]; omega)]
    exact List.getElem_append_left hi

/-- Two keys with the same tagged text are the same key. -/
theorem keyText_inj (k l : List UInt8) (h : "$key$" ++ keyText k = "$key$" ++ keyText l) :
    k = l := by
  have hd := congrArg String.data h
  simp only [String.data_append, keyText, List.append_cancel_left_eq] at hd
  exact map_byteChar_inj k l hd

/-- The keyed stand-in satisfies the comparison law. -/
theorem keyedLibAt_keyed (decode : Request → Except GoError Values) :
    (keyedLibAt decode).KeyedByBcryptKey := by
  intro seed password other cost hash hg
  simp only [keyedLibAt] at hg ⊢
  split at hg
  · cases hg
  · split at hg
    · cases hg
    · injection hg with hg
      subst hg
      constructor
      · intro hc
        by_cases he : "$key$" ++ keyText (bcryptKey password)
            = "$key$" ++ keyText (bcryptKey other)
        · exact (keyText_inj _ _ he).symm
        · rw [if_neg he] at hc
          cases hc
      · intro hk
        rw [hk, if_pos rfl]

/-- A 200 of `handleHash` whose JSON object holds the data `h`: the hash `h` is
not empty and the primitive generated it from the submitted `raw`. -/
theorem handleHash_data_inv (lib : Lib) (seed : Nat) (r : Request) (form : Values) (h : String)
    (hf : lib.ParseForm r = .ok form)
    (hresp : ∃ resp, (handleHash lib seed r State.fresh).response = some (200, resp)
      ∧ ("data", JsonValue.str h) ∈ resp.encode) :
    h ≠ "" ∧ ∃ n, lib.GenerateFromPassword seed (form.Get "raw") n = .ok h := by
  obtain ⟨resp, hr, hdata⟩ := hresp
  rcases handleHash_response_cases lib seed r with c | c | c | c | c | ⟨f, n, h0, _, hf0, _, _, hg, c⟩
  · rw [c] at hr; exact absurd (response_code_eq hr) (by decide)
  · rw [c] at hr; exact absurd (response_code_eq hr) (by decide)
  · rw [c] at hr; exact absurd (response_code_eq hr) (by decide)
  · rw [c] at hr; exact absurd (response_code_eq hr) (by decide)
  · rw [c] at hr; exact absurd (response_code_eq hr) (by decide)
  · rw [hf] at hf0
    injection hf0 with hf0
    subst hf0
    rw [c] at hr
    injection hr with hr
    injection hr with _ hr
    subst hr
    by_cases he : h0 = ""
    · subst he
      simp [apiResponse.encode] at hdata
    · have : h = h0 := by
        simp [apiResponse.encode, he] at hdata
        exact hdata
      subst this
      exact ⟨he, n, hg⟩

/-! ## The statements of the specification -/

/-- C1: a POST to `/hash` whose form decodes, with `raw` and `cost` non-empty
and `cost` no base-10 integer literal, is answered 400 with the envelope
`success:false`, error "Invalid cost", no data, and the hashing primitive is not
called. -/
theorem handleHash_invalid_cost (lib : Lib) (seed : Nat) (r : Request) (form : Values)
    (hm : r.Method = "POST") (hf : lib.ParseForm r = .ok form)
    (hraw : form.Get "raw" ≠ "") (hcost : form.Get "cost" ≠ "")
    (hlit : isIntLiteral (form.Get "cost") = false) :
    (handleHash lib seed r State.fresh).response
        = some (400, { Success := false, Data := "", Error := "Invalid cost" })
      ∧ (handleHash lib seed r State.fresh).calls = [] := by
  obtain ⟨e, he⟩ := Atoi_not_literal _ hlit
  rw [handleHash_atoi_error lib seed r State.fresh form e hm hf hraw hcost he]
  exact ⟨sendResponse_response _ _ _ _ rfl, by rw [sendResponse_calls]; rfl⟩

/-- C1 at `raw=secret123&cost=abc`. -/
theorem handleHash_invalid_cost_witness :
    isIntLiteral (formCostAbc.Get "cost") = false
      ∧ (handleHash (demoLib (.ok formCostAbc)) 0 (hashRequest "POST") State.fresh).response
          = some (400, { Success := false, Data := "", Error := "Invalid cost" })
      ∧ (handleHash (demoLib (.ok formCostAbc)) 0 (hashRequest "POST") State.fresh).calls = [] :=
  ⟨by decide,
    handleHash_invalid_cost (demoLib (.ok formCostAbc)) 0 (hashRequest "POST") formCostAbc
      rfl rfl (by decide) (by decide) (by decide)⟩

/-- C2: on a POST whose form decodes, `handleHash` answers 400 "Missing raw or
cost params" when `raw` or `cost` is absent or empty, whatever the other field
holds (so before any check of the cost), and `handleVerify` answers 400
"Missing raw or hash params" when `raw` or `hash` is absent or empty; the
primitive is not called. -/
theorem missing_params (lib : Lib) (seed : Nat) (r : Request) (form : Values)
    (hm : r.Method = "POST") (hf : lib.ParseForm r = .ok form) :
    ((form.absentOrEmpty "raw" = true ∨ form.absentOrEmpty "cost" = true) →
        (handleHash lib seed r State.fresh).response
            = some (400, { Success := false, Data := "", Error := "Missing raw or cost params" })
          ∧ (handleHash lib seed r State.fresh).calls = [])
      ∧ ((form.absentOrEmpty "raw" = true ∨ form.absentOrEmpty "hash" = true) →
        (handleVerify lib r State.fresh).response
            = some (400, { Success := false, Data := "", Error := "Missing raw or hash params" })
          ∧ (handleVerify lib r State.fresh).calls = []) := by
  constructor
  · intro h
    rw [← Values.Get_eq_empty_iff, ← Values.Get_eq_empty_iff] at h
    rw [handleHash_missing lib seed r State.fresh form hm hf h]
    exact ⟨sendResponse_response _ _ _ _ rfl, by rw [sendResponse_calls]; rfl⟩
  · intro h
    rw [← Values.Get_eq_empty_iff, ← Values.Get_eq_empty_iff] at h
    rw [handleVerify_missing lib r State.fresh form hm hf h]
    exact ⟨sendResponse_response _ _ _ _ rfl, by rw [sendResponse_calls]; rfl⟩

/-- C2 at `raw=&cost=abc`: the empty `raw` decides, not the cost `abc`; the same
form has no `hash` field. -/
theorem missing_params_witness :
    (handleHash (demoLib (.ok formEmptyRawCostAbc)) 0 (hashRequest "POST") State.fresh).response
        = some (400, { Success := false, Data := "", Error := "Missing raw or cost params" })
      ∧ (handleVerify (demoLib (.ok formEmptyRawCostAbc)) (hashRequest "POST") State.fresh).response
        = some (400, { Success := false, Data := "", Error := "Missing raw or hash params" }) :=
  ⟨((missing_params (demoLib (.ok formEmptyRawCostAbc)) 0 (hashRequest "POST")
      formEmptyRawCostAbc rfl rfl).1 (Or.inl (by decide))).1,
    ((missing_params (demoLib (.ok formEmptyRawCostAbc)) 0 (hashRequest "POST")
      formEmptyRawCostAbc rfl rfl).2 (Or.inr (by decide))).1⟩

/-- C3: a request whose method is not POST is answered 405 with the envelope
`success:false`, error "Method not allowed", by both handlers, whatever the
request holds and whatever the form decoder would say, and the primitive is not
called. -/
theorem method_not_allowed (lib : Lib) (seed : Nat) (r : Request) (hm : r.Method ≠ "POST") :
    ((handleHash lib seed r State.fresh).response
        = some (405, { Success := false, Data := "", Error := "Method not allowed" })
      ∧ (handleHash lib seed r State.fresh).calls = [])
    ∧ ((handleVerify lib r State.fresh).response
        = some (405, { Success := false, Data := "", Error := "Method not allowed" })
      ∧ (handleVerify lib r State.fresh).calls = []) := by
  rw [handleHash_not_post lib seed r State.fresh hm, handleVerify_not_post lib r State.fresh hm]
  exact ⟨⟨sendResponse_response _ _ _ _ rfl, by rw [sendResponse_calls]; rfl⟩,
    ⟨sendResponse_response _ _ _ _ rfl, by rw [sendResponse_calls]; rfl⟩⟩

/-- C3 at a GET whose form would be valid for `/hash`. -/
theorem method_not_allowed_witness :
    (hashRequest "GET").Method ≠ "POST"
      ∧ (handleHash (demoLib (.ok formCost10)) 0 (hashRequest "GET") State.fresh).response
        = some (405, { Success := false, Data := "", Error := "Method not allowed" }) :=
  ⟨by decide,
    (method_not_allowed (demoLib (.ok formCost10)) 0 (hashRequest "GET") (by decide)).1.1⟩

/-- C4: a POST to `/verify` whose form decodes with non-empty `raw` and `hash`
is answered 200 with the bare envelope `success:true` exactly when the
primitive reports a match of `hash` and `raw`; whatever error the primitive
returns instead, the answer is 400 with error "Invalid password", never 500. -/
theorem handleVerify_outcome (lib : Lib) (r : Request) (form : Values)
    (hm : r.Method = "POST") (hf : lib.ParseForm r = .ok form)
    (hraw : form.Get "raw" ≠ "") (hhash : form.Get "hash" ≠ "") :
    ((handleVerify lib r State.fresh).response
          = some (200, { Success := true, Data := "", Error := "" })
        ↔ lib.CompareHashAndPassword (form.Get "hash") (form.Get "raw") = none)
      ∧ (∀ e, lib.CompareHashAndPassword (form.Get "hash") (form.Get "raw") = some e →
          (handleVerify lib r State.fresh).response
            = some (400, { Success := false, Data := "", Error := "Invalid password" }))
      ∧ (handleVerify lib r State.fresh).w.status ≠ some 500 := by
  cases hc : lib.CompareHashAndPassword (form.Get "hash") (form.Get "raw") with
  | none =>
    rw [handleVerify_match lib r State.fresh form hm hf hraw hhash hc]
    refine ⟨⟨fun _ => rfl, fun _ => sendResponse_response _ _ _ _ rfl⟩, ?_, ?_⟩
    · intro e he
      cases he
    · rw [sendResponse_status _ _ _ _ rfl]
      decide
  | some e =>
    rw [handleVerify_mismatch lib r State.fresh form e hm hf hraw hhash hc]
    refine ⟨⟨?_, fun h => by cases h⟩, ?_, ?_⟩
    · rw [sendResponse_response _ _ _ _ rfl]
      intro h
      exact absurd h (by decide)
    · intro _ _
      exact sendResponse_response _ _ _ _ rfl
    · rw [sendResponse_status _ _ _ _ rfl]
      decide

/-- C4 at `raw=secret123&hash=garbage`: a hash the primitive does not recognise
is answered 400 "Invalid password". -/
theorem handleVerify_outcome_witness :
    (handleVerify (demoLib (.ok formVerifyGarbage)) (verifyRequest "POST") State.fresh).response
      = some (400, { Success := false, Data := "", Error := "Invalid password" }) :=
  (handleVerify_outcome (demoLib (.ok formVerifyGarbage)) (verifyRequest "POST")
    formVerifyGarbage rfl rfl (by decide) (by decide)).2.1 ⟨"mismatch"⟩ (by decide)

/-- C5: a POST to `/hash` whose form decodes with non-empty `raw` and a `cost`
that parses to `n`: when the primitive returns the hash `h` for `raw` and `n`,
the answer is 200 with `success:true`, data exactly `h` and no error; when it
returns an error, whichever, the answer is 500 with error "Failed to generate
hash" and no data. -/
theorem handleHash_outcome (lib : Lib) (seed : Nat) (r : Request) (form : Values) (n : Int)
    (hm : r.Method = "POST") (hf : lib.ParseForm r = .ok form)
    (hraw : form.Get "raw" ≠ "") (hcost : Atoi (form.Get "cost") = .ok n) :
    (∀ h, lib.GenerateFromPassword seed (form.Get "raw") n = .ok h →
        (handleHash lib seed r State.fresh).response
          = some (200, { Success := true, Data := h, Error := "" }))
      ∧ (∀ e, lib.GenerateFromPassword seed (form.Get "raw") n = .error e →
        (handleHash lib seed r State.fresh).response
          = some (500, { Success := false, Data := "", Error := "Failed to generate hash" })) := by
  have hne : form.Get "cost" ≠ "" :=
    isIntLiteral_ne_empty _ ((Atoi_eq_ok_iff _ n).1 hcost).1
  constructor
  · intro h hg
    rw [handleHash_generate_ok lib seed r State.fresh form n h hm hf hraw hne hcost hg]
    exact sendResponse_response _ _ _ _ rfl
  · intro e hg
    rw [handleHash_generate_error lib seed r State.fresh form n e hm hf hraw hne hcost hg]
    exact sendResponse_response _ _ _ _ rfl

/-- C5 at `raw=secret123&cost=10`: the hash the primitive returns is the data. -/
theorem handleHash_outcome_witness :
    Atoi (formCost10.Get "cost") = .ok 10
      ∧ (handleHash (demoLib (.ok formCost10)) 0 (hashRequest "POST") State.fresh).response
        = some (200, { Success := true, Data := "$demo$secret123", Error := "" }) :=
  ⟨rfl,
    (handleHash_outcome (demoLib (.ok formCost10)) 0 (hashRequest "POST") formCost10 10
      rfl rfl (by decide) rfl).1 "$demo$secret123" rfl⟩

/-- C6 as stated fails: the cost `100000000000000000000` is a base-10 integer
literal, yet `handleHash` answers 400 "Invalid cost" and does not call the
primitive, because the value does not fit the `int` that `strconv.Atoi`
returns. -/
theorem handleHash_huge_cost_rejected :
    isIntLiteral (formCostHuge.Get "cost") = true
      ∧ (handleHash (demoLib (.ok formCostHuge)) 0 (hashRequest "POST") State.fresh).response
          = some (400, { Success := false, Data := "", Error := "Invalid cost" })
      ∧ (handleHash (demoLib (.ok formCostHuge)) 0 (hashRequest "POST") State.fresh).calls
          = [] := by
  decide

/-- C6, amended: on a POST to `/hash` with non-empty `raw` and a `cost` that is
a base-10 integer literal, when the value of the literal lies in the range of a
64-bit `int` the handler makes exactly one call to the primitive, with `raw` and
exactly that value, and does not answer "Invalid cost", wherever in the range
the value lies; when the value lies outside the range the handler answers 400
"Invalid cost" and makes no call. -/
theorem handleHash_literal_cost (lib : Lib) (seed : Nat) (r : Request) (form : Values)
    (hm : r.Method = "POST") (hf : lib.ParseForm r = .ok form)
    (hraw : form.Get "raw" ≠ "") (hlit : isIntLiteral (form.Get "cost") = true) :
    ((-(2 : Int) ^ 63 ≤ literalValue (form.Get "cost")
          ∧ literalValue (form.Get "cost") < (2 : Int) ^ 63) →
        (handleHash lib seed r State.fresh).calls
            = [Call.GenerateFromPassword (form.Get "raw") (literalValue (form.Get "cost"))]
          ∧ ∀ code resp, (handleHash lib seed r State.fresh).response = some (code, resp) →
              resp.Error ≠ "Invalid cost")
      ∧ (¬ (-(2 : Int) ^ 63 ≤ literalValue (form.Get "cost")
          ∧ literalValue (form.Get "cost") < (2 : Int) ^ 63) →
        (handleHash lib seed r State.fresh).response
            = some (400, { Success := false, Data := "", Error := "Invalid cost" })
          ∧ (handleHash lib seed r State.fresh).calls = []) := by
  have hcost : form.Get "cost" ≠ "" := isIntLiteral_ne_empty _ hlit
  have hatoi := Atoi_literal _ hlit
  constructor
  · intro hr
    rw [if_pos hr] at hatoi
    cases hg : lib.GenerateFromPassword seed (form.Get "raw") (literalValue (form.Get "cost")) with
    | error e =>
      rw [handleHash_generate_error lib seed r State.fresh form _ e hm hf hraw hcost hatoi hg]
      refine ⟨by rw [sendResponse_calls]; rfl, ?_⟩
      intro code resp h
      rw [sendResponse_response _ _ _ _ rfl] at h
      injection h with h
      injection h with _ h
      subst h
      decide
    | ok h =>
      rw [handleHash_generate_ok lib seed r State.fresh form _ h hm hf hraw hcost hatoi hg]
      refine ⟨by rw [sendResponse_calls]; rfl, ?_⟩
      intro code resp hresp
      rw [sendResponse_response _ _ _ _ rfl] at hresp
      injection hresp with hresp
      injection hresp with _ hresp
      subst hresp
      show ("" : String) ≠ "Invalid cost"
      decide
  · intro hr
    rw [if_neg hr] at hatoi
    rw [handleHash_atoi_error lib seed r State.fresh form _ hm hf hraw hcost hatoi]
    exact ⟨sendResponse_response _ _ _ _ rfl, by rw [sendResponse_calls]; rfl⟩

/-- C6, amended, at `raw=secret123&cost=-1`: the value -1, below the costs the
primitive accepts, is passed on as it is. -/
theorem handleHash_literal_cost_witness :
    isIntLiteral (formCostMinus1.Get "cost") = true
      ∧ (handleHash (demoLib (.ok formCostMinus1)) 0 (hashRequest "POST") State.fresh).calls
          = [Call.GenerateFromPassword "secret123" (-1)] :=
  ⟨by decide,
    ((handleHash_literal_cost (demoLib (.ok formCostMinus1)) 0 (hashRequest "POST")
      formCostMinus1 rfl rfl (by decide) (by decide)).1 (by decide)).1⟩

/-- C7: with a primitive that satisfies its round-trip law, for a non-empty
secret `s`: when a POST to `/hash` with `raw = s` (and any cost) is answered 200
with data `h`, a POST to `/verify` with `raw = s` and `hash = h` is answered 200
with the bare envelope `success:true`. -/
theorem hash_then_verify (lib : Lib) (seed : Nat) (r1 r2 : Request) (form1 form2 : Values)
    (s h : String) (hlaw : lib.RoundTrip) (hs : s ≠ "")
    (hm1 : r1.Method = "POST") (hf1 : lib.ParseForm r1 = .ok form1)
    (hraw1 : form1.Get "raw" = s)
    (hresp : ∃ resp, (handleHash lib seed r1 State.fresh).response = some (200, resp)
      ∧ ("data", JsonValue.str h) ∈ resp.encode)
    (hm2 : r2.Method = "POST") (hf2 : lib.ParseForm r2 = .ok form2)
    (hraw2 : form2.Get "raw" = s) (hhash2 : form2.Get "hash" = h) :
    (handleVerify lib r2 State.fresh).response
      = some (200, { Success := true, Data := "", Error := "" }) := by
  obtain ⟨resp, hr, hdata⟩ := hresp
  have _ := hm1
  have key : h ≠ "" ∧ lib.CompareHashAndPassword h s = none := by
    rcases handleHash_response_cases lib seed r1 with c | c | c | c | c | ⟨f, n, h0, _, hf, _, _, hg, c⟩
    · rw [c] at hr; exact absurd (response_code_eq hr) (by decide)
    · rw [c] at hr; exact absurd (response_code_eq hr) (by decide)
    · rw [c] at hr; exact absurd (response_code_eq hr) (by decide)
    · rw [c] at hr; exact absurd (response_code_eq hr) (by decide)
    · rw [c] at hr; exact absurd (response_code_eq hr) (by decide)
    · rw [hf1] at hf
      injection hf with hf
      subst hf
      rw [c] at hr
      injection hr with hr
      injection hr with _ hr
      subst hr
      rw [hraw1] at hg
      by_cases he : h0 = ""
      · subst he
        simp [apiResponse.encode] at hdata
      · have : h = h0 := by
          simp [apiResponse.encode, he] at hdata
          exact hdata
        subst this
        exact ⟨he, hlaw seed s n h hg⟩
  have hraw : form2.Get "raw" ≠ "" := by rw [hraw2]; exact hs
  have hhash : form2.Get "hash" ≠ "" := by rw [hhash2]; exact key.1
  rw [handleVerify_match lib r2 State.fresh form2 hm2 hf2 hraw hhash
    (by rw [hraw2, hhash2]; exact key.2)]
  exact sendResponse_response _ _ _ _ rfl

/-- C7 at the secret `secret123`: hashed at cost 10, then verified. -/
theorem hash_then_verify_witness :
    (demoLibAt (decodeByPath formCost10 formVerifyGood)).RoundTrip
      ∧ (handleVerify (demoLibAt (decodeByPath formCost10 formVerifyGood))
          (verifyRequest "POST") State.fresh).response
        = some (200, { Success := true, Data := "", Error := "" }) :=
  ⟨demoLibAt_roundTrip _,
    hash_then_verify (demoLibAt (decodeByPath formCost10 formVerifyGood)) 0
      (hashRequest "POST") (verifyRequest "POST")
      formCost10 formVerifyGood "secret123" "$demo$secret123"
      (demoLibAt_roundTrip _) (by decide) rfl rfl rfl
      ⟨{ Success := true, Data := "$demo$secret123" }, by decide, by decide⟩
      rfl rfl rfl rfl⟩

/-- C8 as stated fails at two long secrets that differ only after their first
72 bytes: `secret72` is 72 letters `a`, `secret73` is the same followed by `b`.
With a primitive that, like `bcrypt`, reads the first 72 bytes, the hash that
`/hash` returns for `secret72` is accepted by `/verify` together with
`secret73`: the answer is 200 with `success:true`, not 400 "Invalid password". -/
theorem verify_long_secret_accepted :
    secret72 ≠ secret73
      ∧ formHash72.Get "raw" = secret72
      ∧ (handleHash (keyedLibAt (decodeByPath formHash72 formVerify73)) 0
          (hashRequest "POST") State.fresh).response
        = some (200, { Success := true, Data := "$key$" ++ secret72, Error := "" })
      ∧ formVerify73.Get "raw" = secret73
      ∧ formVerify73.Get "hash" = "$key$" ++ secret72
      ∧ (handleVerify (keyedLibAt (decodeByPath formHash72 formVerify73))
          (verifyRequest "POST") State.fresh).response
        = some (200, { Success := true, Data := "", Error := "" })
      ∧ (handleVerify (keyedLibAt (decodeByPath formHash72 formVerify73))
          (verifyRequest "POST") State.fresh).response
        ≠ some (400, { Success := false, Data := "", Error := "Invalid password" }) := by
  decide

/-- C8, amended: with a primitive that satisfies its comparison law, for secrets
`s1` and `s2`, different and `s2` non-empty, and a hash `h` that a POST to
`/hash` with `raw = s1` returned as data of a 200: a POST to `/verify` with
`raw = s2` and `hash = h` is answered 400 "Invalid password" when the primitive
reads `s1` and `s2` as different keys, and 200 with the bare envelope
`success:true` when it reads them as the same key, which it does for secrets
of 72 bytes or more that have the same first 72 bytes. -/
theorem verify_other_secret (lib : Lib) (seed : Nat) (r1 r2 : Request) (form1 form2 : Values)
    (s1 s2 h : String) (hlaw : lib.KeyedByBcryptKey) (hne : s1 ≠ s2) (hs2 : s2 ≠ "")
    (hm1 : r1.Method = "POST") (hf1 : lib.ParseForm r1 = .ok form1)
    (hraw1 : form1.Get "raw" = s1)
    (hresp : ∃ resp, (handleHash lib seed r1 State.fresh).response = some (200, resp)
      ∧ ("data", JsonValue.str h) ∈ resp.encode)
    (hm2 : r2.Method = "POST") (hf2 : lib.ParseForm r2 = .ok form2)
    (hraw2 : form2.Get "raw" = s2) (hhash2 : form2.Get "hash" = h) :
    (bcryptKey s2 ≠ bcryptKey s1 →
        (handleVerify lib r2 State.fresh).response
          = some (400, { Success := false, Data := "", Error := "Invalid password" }))
      ∧ (bcryptKey s2 = bcryptKey s1 →
        (handleVerify lib r2 State.fresh).response
          = some (200, { Success := true, Data := "", Error := "" }))
      ∧ (72 ≤ (bytesOf s1).length → 72 ≤ (bytesOf s2).length →
          (bytesOf s2).take 72 = (bytesOf s1).take 72 →
        (handleVerify lib r2 State.fresh).response
          = some (200, { Success := true, Data := "", Error := "" })) := by
  have _ := hm1
  have _ := hne
  obtain ⟨hh, n, hg⟩ := handleHash_data_inv lib seed r1 form1 h hf1 hresp
  rw [hraw1] at hg
  have hiff := hlaw seed s1 s2 n h hg
  have hraw : form2.Get "raw" ≠ "" := by rw [hraw2]; exact hs2
  have hhash : form2.Get "hash" ≠ "" := by rw [hhash2]; exact hh
  have hsame : bcryptKey s2 = bcryptKey s1 →
      (handleVerify lib r2 State.fresh).response
        = some (200, { Success := true, Data := "", Error := "" }) := by
    intro hk
    rw [handleVerify_match lib r2 State.fresh form2 hm2 hf2 hraw hhash
      (by rw [hraw2, hhash2]; exact hiff.2 hk)]
    exact sendResponse_response _ _ _ _ rfl
  refine ⟨?_, hsame, ?_⟩
  · intro hk
    cases hc : lib.CompareHashAndPassword h s2 with
    | none => exact absurd (hiff.1 hc) hk
    | some e =>
      rw [handleVerify_mismatch lib r2 State.fresh form2 e hm2 hf2 hraw hhash
        (by rw [hraw2, hhash2]; exact hc)]
      exact sendResponse_response _ _ _ _ rfl
  · intro h1 h2 ht
    apply hsame
    rw [bcryptKey_eq_take s1 h1, bcryptKey_eq_take s2 h2, ht]

/-- C8, amended, at the secrets `secret123` and `secret124`, which the primitive
reads as different keys: the hash of the first, submitted with the second, is
answered 400 "Invalid password". -/
theorem verify_other_secret_witness :
    (keyedLibAt (decodeByPath formCost10 formVerifyOther)).KeyedByBcryptKey
      ∧ bcryptKey "secret124" ≠ bcryptKey "secret123"
      ∧ (handleVerify (keyedLibAt (decodeByPath formCost10 formVerifyOther))
          (verifyRequest "POST") State.fresh).response
        = some (400, { Success := false, Data := "", Error := "Invalid password" }) :=
  ⟨keyedLibAt_keyed _, by decide,
    (verify_other_secret (keyedLibAt (decodeByPath formCost10 formVerifyOther)) 0
      (hashRequest "POST") (verifyRequest "POST") formCost10 formVerifyOther
      "secret123" "secret124" ("$key$" ++ keyText (bcryptKey "secret123"))
      (keyedLibAt_keyed _) (by decide) (by decide) rfl rfl rfl
      ⟨{ Success := true, Data := "$key$" ++ keyText (bcryptKey "secret123") },
        by decide, by decide⟩
      rfl rfl rfl rfl).1 (by decide)⟩

/-- C9: every run of `handleHash` and of `handleVerify` sends a status and an
envelope that satisfy the envelope invariant: `success` is true exactly for the
status 200; a status other than 200 comes with `success:false`, a non-empty
error and no data; the status 200 comes with no error; an empty data or error
is left out of the JSON object; and `handleVerify` never sends data. -/
theorem envelope_invariant (lib : Lib) (seed : Nat) (r : Request) :
    (∃ code resp, (handleHash lib seed r State.fresh).response = some (code, resp)
        ∧ envelopeInvariant code resp)
      ∧ (∃ code resp, (handleVerify lib r State.fresh).response = some (code, resp)
        ∧ envelopeInvariant code resp ∧ resp.Data = "") := by
  constructor
  · rcases handleHash_response_cases lib seed r with c | c | c | c | c | ⟨f, n, h, _, _, _, _, _, c⟩
    · exact ⟨_, _, c, by simp [envelopeInvariant, apiResponse.encode]⟩
    · exact ⟨_, _, c, by simp [envelopeInvariant, apiResponse.encode]⟩
    · exact ⟨_, _, c, by simp [envelopeInvariant, apiResponse.encode]⟩
    · exact ⟨_, _, c, by simp [envelopeInvariant, apiResponse.encode]⟩
    · exact ⟨_, _, c, by simp [envelopeInvariant, apiResponse.encode]⟩
    · refine ⟨_, _, c, ?_⟩
      simp only [envelopeInvariant, apiResponse.encode]
      refine ⟨by simp, by simp, by simp, ?_, by simp⟩
      intro hd
      simp [hd]
  · rcases handleVerify_response_cases lib r with c | c | c | c | ⟨f, _, _, _, _, _, c⟩
    · exact ⟨_, _, c, by simp [envelopeInvariant, apiResponse.encode], rfl⟩
    · exact ⟨_, _, c, by simp [envelopeInvariant, apiResponse.encode], rfl⟩
    · exact ⟨_, _, c, by simp [envelopeInvariant, apiResponse.encode], rfl⟩
    · exact ⟨_, _, c, by simp [envelopeInvariant, apiResponse.encode], rfl⟩
    · exact ⟨_, _, c, by simp [envelopeInvariant, apiResponse.encode], rfl⟩

/-- C10 at a GET of `/hash` from `10.0.0.1:4711` that takes 1500000 ns: the
middleware logs two records around the handler; the first holds the method, the
path and the remote address; the second holds the method, the path and the
duration, and the remote address is not among its arguments. -/
theorem withLogging_completed_lacks_address :
    (withLogging stdLogger 0 1500000 (handleHash (demoLib (.ok formCost10)) 0)
        (hashRequest "GET") State.fresh).log
      = [⟨"Started %s %s from %s",
            [LogArg.str "GET", LogArg.str "/hash", LogArg.str "10.0.0.1:4711"]⟩,
          ⟨"Completed %s %s from %v",
            [LogArg.str "GET", LogArg.str "/hash", LogArg.duration 1500000]⟩]
      ∧ LogArg.str (hashRequest "GET").RemoteAddr
          ∉ [LogArg.str "GET", LogArg.str "/hash", LogArg.duration 1500000] := by
  decide

end GoBaas
